import Mathlib

/-!
Verification development for the whilego repository: a scanner, parser and
(spec-level) interpreter for the classical WHILE language.

The scanner and parser are shallowly embedded from the Go sources
(token.go-style scanner in the unnamed source file, and parser.go).  The Go
code pulls runes from a buffered reader with one-rune pushback; here the
remaining character stream is threaded explicitly as a list of characters,
and each scanning function returns the token, its literal, an error flag
(Go error presence) and the remaining stream.  Reads at end of stream model
bufio returning io.EOF: the read fails with an error and the rune value 0.
-/

/-- Token models the Go Token enumeration (same order, ILLEGAL is the zero
value). -/
inductive Token : Type where
  | ILLEGAL : Token
  | EOF : Token
  | WS : Token
  | VARIABLE : Token
  | CONSTANT : Token
  | SEMICOLON : Token
  | ASSIGN : Token
  | NOTEQUAL : Token
  | PLUS : Token
  | MINUS : Token
  | WHILE : Token
  | DO : Token
  | END : Token
deriving DecidableEq, Repr

/-- Models Go isWhitespace: space, tab or newline. -/
def isWhitespace (ch : Char) : Bool :=
  ch = ' ' || ch = '\t' || ch = '\n'

/-- Models Go isDigit. -/
def isDigit (ch : Char) : Bool :=
  '0' ≤ ch && ch ≤ '9'

/-- Models the Go value eof = rune(0): the rune value returned by a failed
read, and also the character whose successful read produces the EOF token. -/
def eofRune : Char := Char.ofNat 0

/-- Result of one scanner call: token, literal, error flag, and the remaining
character stream (the Go scanner mutates its reader; here the stream is
threaded explicitly). -/
structure ScanResult : Type where
  tok : Token
  lit : String
  err : Bool
  rest : List Char
deriving DecidableEq, Repr

/-- Models Go scanError: returns the ILLEGAL token, an empty literal and an
error. -/
def scanError (rest : List Char) : ScanResult :=
  ⟨Token.ILLEGAL, String.mk [], true, rest⟩

/-- Loop body of Go Scanner.scanWhitespace: keep reading whitespace runes
into the buffer; stop (without error) at a failed read (end of stream), at a
rune equal to eof (consumed), or at a non-whitespace rune (unread). -/
def scanWhitespaceLoop (buf : List Char) : List Char → ScanResult
  | [] => ⟨Token.WS, String.mk buf, false, []⟩
  | c :: rest =>
    if c = eofRune then ⟨Token.WS, String.mk buf, false, rest⟩
    else if isWhitespace c then scanWhitespaceLoop (buf ++ [c]) rest
    else ⟨Token.WS, String.mk buf, false, c :: rest⟩

/-- Models Go Scanner.scanWhitespace (called after the whitespace rune that
triggered it has been unread, so the input starts with that rune). -/
def Scanner.scanWhitespace : List Char → ScanResult
  | [] => scanError []
  | c :: rest => scanWhitespaceLoop [c] rest

/-- Loop body of Go Scanner.scanVariable: keep reading digit runes; stop at a
failed read, an eof rune (consumed), or a non-digit rune (unread). -/
def scanVariableLoop (buf : List Char) : List Char → ScanResult
  | [] => ⟨Token.VARIABLE, String.mk buf, false, []⟩
  | c :: rest =>
    if c = eofRune then ⟨Token.VARIABLE, String.mk buf, false, rest⟩
    else if isDigit c then scanVariableLoop (buf ++ [c]) rest
    else ⟨Token.VARIABLE, String.mk buf, false, c :: rest⟩

/-- Models Go Scanner.scanVariable (after the unread, so the input starts
with the rune that triggered it, which must be the letter x). -/
def Scanner.scanVariable : List Char → ScanResult
  | [] => scanError []
  | c :: rest => if c = 'x' then scanVariableLoop [c] rest else scanError rest

/-- Loop body of Go Scanner.scanString: match the expected literal rune by
rune; a failed read or a mismatching rune yields scanError (the mismatching
rune stays consumed). -/
def scanStringLoop (expected : Token) (buf : List Char) :
    List Char → List Char → ScanResult
  | [], input => ⟨expected, String.mk buf, false, input⟩
  | _ :: _, [] => scanError []
  | sc :: srest, c :: rest =>
    if c = sc then scanStringLoop expected (buf ++ [c]) srest rest
    else scanError rest

/-- Models Go Scanner.scanString (after the unread, so the input begins at
the first rune of the expected literal). -/
def Scanner.scanString (expected : Token) (str : List Char)
    (input : List Char) : ScanResult :=
  scanStringLoop expected [] str input

/-- Models Go Scanner.Scan.  A failed read at end of stream produces
scanError; a successful read dispatches on the rune exactly as the Go switch
does (the eof rune case first, then the single- and multi-character token
starters, with ILLEGAL as the default). -/
def Scanner.Scan : List Char → ScanResult
  | [] => scanError []
  | ch :: rest =>
    if isWhitespace ch then Scanner.scanWhitespace (ch :: rest)
    else if ch = eofRune then ⟨Token.EOF, String.mk [], false, rest⟩
    else if ch = 'x' then Scanner.scanVariable (ch :: rest)
    else if ch = '0' then ⟨Token.CONSTANT, String.mk [ch], false, rest⟩
    else if ch = '1' then ⟨Token.CONSTANT, String.mk [ch], false, rest⟩
    else if ch = ':' then Scanner.scanString Token.ASSIGN [':', '='] (ch :: rest)
    else if ch = '!' then Scanner.scanString Token.NOTEQUAL ['!', '='] (ch :: rest)
    else if ch = ';' then ⟨Token.SEMICOLON, String.mk [ch], false, rest⟩
    else if ch = '+' then ⟨Token.PLUS, String.mk [ch], false, rest⟩
    else if ch = '-' then ⟨Token.MINUS, String.mk [ch], false, rest⟩
    else if ch = 'W' then
      Scanner.scanString Token.WHILE ['W', 'H', 'I', 'L', 'E'] (ch :: rest)
    else if ch = 'D' then Scanner.scanString Token.DO ['D', 'O'] (ch :: rest)
    else if ch = 'E' then Scanner.scanString Token.END ['E', 'N', 'D'] (ch :: rest)
    else ⟨Token.ILLEGAL, String.mk [ch], false, rest⟩

/-- Models strings.TrimPrefix applied with the one-character pattern x, as
used by parseIncr on variable literals. -/
def trimLeadingX (s : String) : String :=
  match s.data with
  | 'x' :: rest => String.mk rest
  | _ => s

/-- Decimal value of a digit string, accumulated left to right exactly as
strconv.Atoi accumulates it. -/
def digitsVal (ds : List Char) : Nat :=
  ds.foldl (fun a c => a * 10 + (c.toNat - 48)) 0

/-- Largest value of the Go type int (64-bit platforms). -/
def maxGoInt : Nat := 9223372036854775807

/-- Models strconv.Atoi restricted to the inputs it receives here (the
variable literal with its leading x trimmed, hence a possibly empty digit
string): the empty string and non-digit characters are errors, and a value
exceeding the int range is a range error, as in Go on 64-bit platforms. -/
def Atoi (s : String) : Option Int :=
  if s.data = [] then none
  else if s.data.all isDigit then
    if digitsVal s.data ≤ maxGoInt then some (Int.ofNat (digitsVal s.data))
    else none
  else none

/-- Models the Go IncrExpr struct. -/
structure IncrExpr : Type where
  Variable : Int
  Decrement : Bool
deriving DecidableEq, Repr

/-- Models the Go ExprType enumeration. -/
inductive ExprType : Type where
  | INVALID_EXPR : ExprType
  | INCR_EXPR : ExprType
  | SEQ_EXPR : ExprType
  | WHILE_EXPR : ExprType
deriving DecidableEq, Repr

/-- Models the Go Expr struct.  The Go struct carries a type tag plus one
nullable pointer per variant; only the combinations actually constructed by
the parser are representable here: the zero value (tag INVALID_EXPR, all
pointers nil), an increment node, a sequence node (whose two child pointers
may each be nil, since the parser can store a nil child), and a while node
(never constructed by the current parser). -/
inductive Expr : Type where
  | invalid : Expr
  | incrE : IncrExpr → Expr
  | seqE : Option Expr → Option Expr → Expr
  | whileE : Int → Option Expr → Expr

/-- The Type tag of an Expr value, as stored in the Go struct. -/
def Expr.type : Expr → ExprType
  | Expr.invalid => ExprType.INVALID_EXPR
  | Expr.incrE _ => ExprType.INCR_EXPR
  | Expr.seqE _ _ => ExprType.SEQ_EXPR
  | Expr.whileE _ _ => ExprType.WHILE_EXPR

/-- Models the Go Parser struct: the scanner state (remaining characters)
plus the one-token lookahead buffer (last read token and literal, and the
buffer size n, which is 0 or 1). -/
structure Parser : Type where
  input : List Char
  bufTok : Token
  bufLit : String
  bufN : Nat
deriving DecidableEq, Repr

/-- Result of one Parser.scan call: token, literal, error flag and the
updated parser. -/
structure ScanState : Type where
  tok : Token
  lit : String
  err : Bool
  p : Parser
deriving DecidableEq, Repr

/-- Models Go Parser.scan: deliver the buffered token if one is pending,
otherwise pull a token from the scanner and record it in the buffer. -/
def Parser.scan (p : Parser) : ScanState :=
  if p.bufN ≠ 0 then ⟨p.bufTok, p.bufLit, false, { p with bufN := 0 }⟩
  else
    let r := Scanner.Scan p.input
    ⟨r.tok, r.lit, r.err, ⟨r.rest, r.tok, r.lit, 0⟩⟩

/-- Models Go Parser.unscan: mark the buffered token as pending again. -/
def Parser.unscan (p : Parser) : Parser := { p with bufN := 1 }

/-- Models Go Parser.scanIgnoreWhitespace: scan once, return early on error,
and scan once more if the token was whitespace. -/
def Parser.scanIgnoreWhitespace (p : Parser) : ScanState :=
  let r := p.scan
  if r.err then r
  else if r.tok = Token.WS then r.p.scan
  else r

/-- Final step of Go Parser.parseIncr: require a CONSTANT token with literal
1 after the sign, then return the finished increment expression. -/
def Parser.parseIncrOne (v : Int) (dec : Bool) (p : Parser) :
    Option IncrExpr × Parser :=
  let r5 := p.scanIgnoreWhitespace
  if r5.err then (none, r5.p)
  else if r5.tok ≠ Token.CONSTANT ∨ r5.lit ≠ String.mk ['1'] then (none, r5.p)
  else (some ⟨v, dec⟩, r5.p)

/-- Models Go Parser.parseIncr: left variable, assignment sign, right
variable with an index equal to the left one, a plus or minus sign, and the
constant 1.  Any failed expectation returns an error (modelled as none). -/
def Parser.parseIncr (p : Parser) : Option IncrExpr × Parser :=
  let r1 := p.scanIgnoreWhitespace
  if r1.err then (none, r1.p)
  else if r1.tok ≠ Token.VARIABLE then (none, r1.p)
  else
    match Atoi (trimLeadingX r1.lit) with
    | none => (none, r1.p)
    | some firstVarNum =>
      let r2 := r1.p.scanIgnoreWhitespace
      if r2.err then (none, r2.p)
      else if r2.tok ≠ Token.ASSIGN then (none, r2.p)
      else
        let r3 := r2.p.scanIgnoreWhitespace
        if r3.err then (none, r3.p)
        else if r3.tok ≠ Token.VARIABLE then (none, r3.p)
        else
          match Atoi (trimLeadingX r3.lit) with
          | none => (none, r3.p)
          | some secondVarNum =>
            if firstVarNum ≠ secondVarNum then (none, r3.p)
            else
              let r4 := r3.p.scanIgnoreWhitespace
              if r4.err then (none, r4.p)
              else
                match r4.tok with
                | Token.PLUS => Parser.parseIncrOne firstVarNum false r4.p
                | Token.MINUS => Parser.parseIncrOne firstVarNum true r4.p
                | _ => (none, r4.p)

/-- Result of one Parser.Parse call: the returned expression pointer (none
models a nil pointer), the error flag, and the final parser state. -/
structure ParseResult : Type where
  expr : Option Expr
  err : Bool
  p : Parser

/-- Models the tail of Go Parser.Parse (from the second scanIgnoreWhitespace
on): return the current expression on ILLEGAL or EOF, propagate errors, and
on a SEMICOLON parse the remainder recursively and wrap both parts in a
sequence node; any other token ends the parse with the current expression.
The recursive Parse call is passed in as parseRec. -/
def Parser.parseTail (parseRec : Parser → ParseResult) (ex1 : Expr)
    (expr : Option Expr) (p : Parser) : ParseResult :=
  let r := p.scanIgnoreWhitespace
  if r.tok = Token.ILLEGAL ∨ r.tok = Token.EOF then ⟨expr, false, r.p⟩
  else if r.err then ⟨none, true, r.p⟩
  else if r.tok = Token.SEMICOLON then
    let res := parseRec r.p
    if res.err then ⟨none, true, res.p⟩
    else ⟨some (Expr.seqE (some ex1) res.expr), false, res.p⟩
  else ⟨expr, false, r.p⟩

/-- Models Go Parser.Parse.  The Go function recurses after each semicolon;
since every recursive call has consumed at least the semicolon character,
input length bounds the recursion depth, and the fuel argument (always
instantiated above that bound) carries the termination argument. -/
def Parser.Parse : Nat → Parser → ParseResult
  | 0, p => ⟨none, true, p⟩
  | fuel + 1, p =>
    let r1 := p.scanIgnoreWhitespace
    if r1.err then ⟨none, true, r1.p⟩
    else if r1.tok = Token.VARIABLE then
      match r1.p.unscan.parseIncr with
      | (none, p2) => ⟨none, true, p2⟩
      | (some ie, p2) =>
        Parser.parseTail (Parser.Parse fuel) (Expr.incrE ie)
          (some (Expr.incrE ie)) p2
    else Parser.parseTail (Parser.Parse fuel) Expr.invalid none r1.p

/-- Models Go NewParser on a fresh reader over the given source text: empty
lookahead buffer (the Go zero value for the buffer holds the ILLEGAL token,
the empty literal and size 0). -/
def mkParser (s : String) : Parser :=
  ⟨s.data, Token.ILLEGAL, String.mk [], 0⟩

/-- One whole Parse invocation on a fresh parser over the given source text.
The fuel is one more than the number of input characters, which exceeds the
possible recursion depth. -/
def ParseString (s : String) : ParseResult :=
  Parser.Parse (s.data.length + 1) (mkParser s)

/-! Decimal representation of natural numbers, used to state the claims that
quantify over the variable index appearing in the source text. -/

/-- Digit characters of n in base 10, most significant first, prepended to
acc.  The fuel argument (any value above the number of digits) makes the
recursion structural. -/
def decDigitsCore : Nat → Nat → List Char → List Char
  | 0, _, acc => acc
  | fuel + 1, n, acc =>
    if n < 10 then Nat.digitChar n :: acc
    else decDigitsCore fuel (n / 10) (Nat.digitChar (n % 10) :: acc)

/-- Canonical decimal digit characters of n, most significant first. -/
def decDigits (n : Nat) : List Char := decDigitsCore (n + 1) n []

theorem digitChar_isDigit (d : Nat) (h : d < 10) :
    isDigit (Nat.digitChar d) = true := by
  interval_cases d <;> decide

theorem digitChar_toNat (d : Nat) (h : d < 10) :
    (Nat.digitChar d).toNat - 48 = d := by
  interval_cases d <;> decide

theorem digitsVal_append_one (ds : List Char) (c : Char) :
    digitsVal (ds ++ [c]) = digitsVal ds * 10 + (c.toNat - 48) := by
  simp [digitsVal, List.foldl_append]

theorem decDigitsCore_append (fuel : Nat) :
    ∀ (n : Nat) (acc : List Char),
      decDigitsCore fuel n acc = decDigitsCore fuel n [] ++ acc := by
  induction fuel with
  | zero => intro n acc; simp [decDigitsCore]
  | succ fuel ih =>
    intro n acc
    by_cases h : n < 10
    · simp [decDigitsCore, h]
    · simp only [decDigitsCore, if_neg h]
      rw [ih (n / 10) (Nat.digitChar (n % 10) :: acc),
        ih (n / 10) [Nat.digitChar (n % 10)], List.append_assoc]
      rfl

theorem decDigitsCore_spec (fuel : Nat) :
    ∀ n : Nat, n < fuel →
      decDigitsCore fuel n [] ≠ [] ∧
      (∀ c ∈ decDigitsCore fuel n [], isDigit c = true) ∧
      digitsVal (decDigitsCore fuel n []) = n := by
  induction fuel with
  | zero => intro n h; omega
  | succ fuel ih =>
    intro n hn
    by_cases h : n < 10
    · refine ⟨by simp [decDigitsCore, h], ?_, ?_⟩
      · intro c hc
        simp [decDigitsCore, h] at hc
        subst hc
        exact digitChar_isDigit n h
      · simp [decDigitsCore, h, digitsVal, digitChar_toNat n h]
    · have hdiv : n / 10 < fuel := by
        have h1 : n / 10 < n := Nat.div_lt_self (by omega) (by omega)
        omega
      obtain ⟨ihne, ihdig, ihval⟩ := ih (n / 10) hdiv
      simp only [decDigitsCore, if_neg h]
      rw [decDigitsCore_append fuel (n / 10) [Nat.digitChar (n % 10)]]
      refine ⟨by simp, ?_, ?_⟩
      · intro c hc
        rcases List.mem_append.mp hc with hc | hc
        · exact ihdig c hc
        · simp at hc
          subst hc
          exact digitChar_isDigit _ (Nat.mod_lt n (by omega))
      · rw [digitsVal_append_one, ihval,
          digitChar_toNat _ (Nat.mod_lt n (by omega))]
        omega

theorem decDigits_ne_nil (n : Nat) : decDigits n ≠ [] :=
  (decDigitsCore_spec (n + 1) n (Nat.lt_succ_self n)).1

theorem decDigits_isDigit (n : Nat) : ∀ c ∈ decDigits n, isDigit c = true :=
  (decDigitsCore_spec (n + 1) n (Nat.lt_succ_self n)).2.1

theorem digitsVal_decDigits (n : Nat) : digitsVal (decDigits n) = n :=
  (decDigitsCore_spec (n + 1) n (Nat.lt_succ_self n)).2.2

/-! Symbolic scanning lemmas: how the scanner behaves on an input that
decomposes into a token's characters followed by the rest of the stream. -/

/-- The stream either ended or continues with a character that ends a digit
run without being consumed (not a digit, not the eof rune). -/
def noDigitStart : List Char → Prop
  | [] => True
  | c :: _ => isDigit c = false ∧ c ≠ eofRune

/-- The stream either ended or continues with a non-whitespace character. -/
def noWsStart : List Char → Prop
  | [] => True
  | c :: _ => isWhitespace c = false

/-- The stream left after a whitespace run ends: the eof rune, if it is what
ended the run, has been consumed. -/
def wsStop : List Char → List Char
  | [] => []
  | c :: t => if c = eofRune then t else c :: t

theorem isDigit_ne_eofRune {c : Char} (h : isDigit c = true) : c ≠ eofRune := by
  intro he
  subst he
  simp [isDigit, eofRune] at h

theorem isWhitespace_ne_eofRune {c : Char} (h : isWhitespace c = true) :
    c ≠ eofRune := by
  intro he
  subst he
  simp [isWhitespace, eofRune] at h

theorem scanVariableLoop_spec (ds : List Char) :
    ∀ (buf rest : List Char), (∀ c ∈ ds, isDigit c = true) → noDigitStart rest →
      scanVariableLoop buf (ds ++ rest) =
        ⟨Token.VARIABLE, String.mk (buf ++ ds), false, rest⟩ := by
  induction ds with
  | nil =>
    intro buf rest _ hrest
    match rest with
    | [] => simp [scanVariableLoop]
    | c :: t =>
      obtain ⟨hc, hce⟩ := hrest
      simp [scanVariableLoop, hc, hce]
  | cons d ds ih =>
    intro buf rest hds hrest
    have hd : isDigit d = true := hds d (List.mem_cons_self d ds)
    have hde : d ≠ eofRune := isDigit_ne_eofRune hd
    have hstep := ih (buf ++ [d]) rest (fun c hc => hds c (List.mem_cons_of_mem d hc)) hrest
    simp only [List.cons_append, scanVariableLoop, if_neg hde, hd, if_true]
    simpa [List.append_assoc] using hstep

theorem scanWhitespaceLoop_spec (w : List Char) :
    ∀ (buf rest : List Char), (∀ c ∈ w, isWhitespace c = true) → noWsStart rest →
      scanWhitespaceLoop buf (w ++ rest) =
        ⟨Token.WS, String.mk (buf ++ w), false, wsStop rest⟩ := by
  induction w with
  | nil =>
    intro buf rest _ hrest
    match rest with
    | [] => simp [scanWhitespaceLoop, wsStop]
    | c :: t =>
      have hc : isWhitespace c = false := hrest
      by_cases hce : c = eofRune
      · subst hce
        simp [scanWhitespaceLoop, wsStop]
      · simp [scanWhitespaceLoop, wsStop, hce, hc]
  | cons d w ih =>
    intro buf rest hw hrest
    have hd : isWhitespace d = true := hw d (List.mem_cons_self d w)
    have hde : d ≠ eofRune := isWhitespace_ne_eofRune hd
    have hstep := ih (buf ++ [d]) rest (fun c hc => hw c (List.mem_cons_of_mem d hc)) hrest
    simp only [List.cons_append, scanWhitespaceLoop, if_neg hde, hd, if_true]
    simpa [List.append_assoc] using hstep

/-- Scanning an input that starts with the letter x followed by digits: one
VARIABLE token whose literal is the x and the digit run. -/
theorem Scan_variable (ds rest : List Char) (hds : ∀ c ∈ ds, isDigit c = true)
    (hrest : noDigitStart rest) :
    Scanner.Scan ('x' :: (ds ++ rest)) =
      ⟨Token.VARIABLE, String.mk ('x' :: ds), false, rest⟩ := by
  have h := scanVariableLoop_spec ds ['x'] rest hds hrest
  simp only [Scanner.Scan, Scanner.scanVariable]
  norm_num
  simpa using h

/-! Parser-level stepping lemmas: one scanIgnoreWhitespace call at a time on
the stream shapes that the increment grammar produces. -/

/-- A pending buffered non-whitespace token is delivered as is. -/
theorem sIW_buffered (input : List Char) (tk : Token) (lt : String)
    (h : tk ≠ Token.WS) :
    Parser.scanIgnoreWhitespace ⟨input, tk, lt, 1⟩ =
      ⟨tk, lt, false, ⟨input, tk, lt, 0⟩⟩ := by
  simp [Parser.scanIgnoreWhitespace, Parser.scan, h]

/-- Reading a variable token from the head of the stream. -/
theorem sIW_variable (ds rest : List Char) (tk : Token) (lt : String)
    (hds : ∀ c ∈ ds, isDigit c = true) (hrest : noDigitStart rest) :
    Parser.scanIgnoreWhitespace ⟨'x' :: (ds ++ rest), tk, lt, 0⟩ =
      ⟨Token.VARIABLE, String.mk ('x' :: ds), false,
        ⟨rest, Token.VARIABLE, String.mk ('x' :: ds), 0⟩⟩ := by
  simp [Parser.scanIgnoreWhitespace, Parser.scan,
    Scan_variable ds rest hds hrest]

/-- Reading a variable token preceded by one space. -/
theorem sIW_space_variable (ds rest : List Char) (tk : Token) (lt : String)
    (hds : ∀ c ∈ ds, isDigit c = true) (hrest : noDigitStart rest) :
    Parser.scanIgnoreWhitespace ⟨' ' :: 'x' :: (ds ++ rest), tk, lt, 0⟩ =
      ⟨Token.VARIABLE, String.mk ('x' :: ds), false,
        ⟨rest, Token.VARIABLE, String.mk ('x' :: ds), 0⟩⟩ := by
  have hscan : Scanner.Scan (' ' :: 'x' :: (ds ++ rest)) =
      ⟨Token.WS, String.mk [' '], false, 'x' :: (ds ++ rest)⟩ := by
    simp [Scanner.Scan, Scanner.scanWhitespace, scanWhitespaceLoop,
      (by decide : isWhitespace ' ' = true),
      (by decide : isWhitespace 'x' = false),
      (by decide : ¬('x' = eofRune))]
  simp [Parser.scanIgnoreWhitespace, Parser.scan, hscan,
    Scan_variable ds rest hds hrest]

/-- Reading the assignment operator preceded by one space. -/
theorem sIW_assign (rest : List Char) (tk : Token) (lt : String) :
    Parser.scanIgnoreWhitespace ⟨' ' :: ':' :: '=' :: rest, tk, lt, 0⟩ =
      ⟨Token.ASSIGN, String.mk [':', '='], false,
        ⟨rest, Token.ASSIGN, String.mk [':', '='], 0⟩⟩ := rfl

/-- Reading the plus operator preceded by one space. -/
theorem sIW_plus (rest : List Char) (tk : Token) (lt : String) :
    Parser.scanIgnoreWhitespace ⟨' ' :: '+' :: rest, tk, lt, 0⟩ =
      ⟨Token.PLUS, String.mk ['+'], false, ⟨rest, Token.PLUS, String.mk ['+'], 0⟩⟩ := rfl

/-- Reading the minus operator preceded by one space. -/
theorem sIW_minus (rest : List Char) (tk : Token) (lt : String) :
    Parser.scanIgnoreWhitespace ⟨' ' :: '-' :: rest, tk, lt, 0⟩ =
      ⟨Token.MINUS, String.mk ['-'], false, ⟨rest, Token.MINUS, String.mk ['-'], 0⟩⟩ := rfl

/-- Reading the constant 1 preceded by one space. -/
theorem sIW_one (rest : List Char) (tk : Token) (lt : String) :
    Parser.scanIgnoreWhitespace ⟨' ' :: '1' :: rest, tk, lt, 0⟩ =
      ⟨Token.CONSTANT, String.mk ['1'], false,
        ⟨rest, Token.CONSTANT, String.mk ['1'], 0⟩⟩ := rfl

/-- Atoi applied to a variable literal: the leading x is trimmed and the
digit run is converted, succeeding exactly as long as the value fits in the
int range. -/
theorem Atoi_variable_lit (ds : List Char) (hne : ds ≠ [])
    (hds : ∀ c ∈ ds, isDigit c = true) (hb : digitsVal ds ≤ maxGoInt) :
    Atoi (trimLeadingX (String.mk ('x' :: ds))) =
      some (Int.ofNat (digitsVal ds)) := by
  have htrim : trimLeadingX (String.mk ('x' :: ds)) = String.mk ds := rfl
  rw [htrim]
  simp [Atoi, hne, List.all_eq_true.mpr hds, hb]

/-- Master lemma for parseIncr on a source of the shape
x ds1 space := space x ds2 space op space 1 tail, entered the way Parse
enters it (the first variable token sits unscanned in the buffer): the
parse succeeds with the common index exactly when the two digit runs have
the same value, and fails with an error otherwise. -/
theorem parseIncr_asgn (ds₁ ds₂ : List Char) (op : Char) (dec : Bool)
    (tail : List Char)
    (h₁ : ∀ c ∈ ds₁, isDigit c = true) (h₂ : ∀ c ∈ ds₂, isDigit c = true)
    (hn₁ : ds₁ ≠ []) (hn₂ : ds₂ ≠ [])
    (hb₁ : digitsVal ds₁ ≤ maxGoInt) (hb₂ : digitsVal ds₂ ≤ maxGoInt)
    (hop : op = '+' ∧ dec = false ∨ op = '-' ∧ dec = true) :
    Parser.parseIncr
        ⟨' ' :: ':' :: '=' :: ' ' :: 'x' :: (ds₂ ++ (' ' :: op :: ' ' :: '1' :: tail)),
          Token.VARIABLE, String.mk ('x' :: ds₁), 1⟩ =
      if digitsVal ds₁ = digitsVal ds₂ then
        (some ⟨Int.ofNat (digitsVal ds₁), dec⟩,
          ⟨tail, Token.CONSTANT, String.mk ['1'], 0⟩)
      else
        (none, ⟨' ' :: op :: ' ' :: '1' :: tail, Token.VARIABLE,
          String.mk ('x' :: ds₂), 0⟩) := by
  have hnd : noDigitStart (' ' :: op :: ' ' :: '1' :: tail) :=
    ⟨by decide, by decide⟩
  have ha₁ := Atoi_variable_lit ds₁ hn₁ h₁ hb₁
  have ha₂ := Atoi_variable_lit ds₂ hn₂ h₂ hb₂
  rcases hop with ⟨ho, hd⟩ | ⟨ho, hd⟩ <;> subst ho <;> subst hd
  · have e1 := sIW_buffered
      (' ' :: ':' :: '=' :: ' ' :: 'x' :: (ds₂ ++ (' ' :: '+' :: ' ' :: '1' :: tail)))
      Token.VARIABLE (String.mk ('x' :: ds₁)) (by decide)
    have e3 := sIW_space_variable ds₂ (' ' :: '+' :: ' ' :: '1' :: tail)
      Token.ASSIGN (String.mk [':', '=']) h₂ hnd
    by_cases hv : digitsVal ds₁ = digitsVal ds₂ <;>
      simp [Parser.parseIncr, Parser.parseIncrOne, e1, e3,
        sIW_assign, sIW_plus, sIW_one, ha₁, ha₂, hv]
  · have e1 := sIW_buffered
      (' ' :: ':' :: '=' :: ' ' :: 'x' :: (ds₂ ++ (' ' :: '-' :: ' ' :: '1' :: tail)))
      Token.VARIABLE (String.mk ('x' :: ds₁)) (by decide)
    have e3 := sIW_space_variable ds₂ (' ' :: '-' :: ' ' :: '1' :: tail)
      Token.ASSIGN (String.mk [':', '=']) h₂ hnd
    by_cases hv : digitsVal ds₁ = digitsVal ds₂ <;>
      simp [Parser.parseIncr, Parser.parseIncrOne, e1, e3,
        sIW_assign, sIW_minus, sIW_one, ha₁, ha₂, hv]

/-- One Parse step on a source of the shape
x ds1 space := space x ds2 space op space 1 tail: parseIncr runs as above,
and on success the parse continues with the tail of the grammar (modelled by
parseTail) from the stream position right after the constant 1. -/
theorem Parse_asgn (fuel : Nat) (ds₁ ds₂ : List Char) (op : Char) (dec : Bool)
    (tail : List Char) (tk : Token) (lt : String)
    (h₁ : ∀ c ∈ ds₁, isDigit c = true) (h₂ : ∀ c ∈ ds₂, isDigit c = true)
    (hn₁ : ds₁ ≠ []) (hn₂ : ds₂ ≠ [])
    (hb₁ : digitsVal ds₁ ≤ maxGoInt) (hb₂ : digitsVal ds₂ ≤ maxGoInt)
    (hop : op = '+' ∧ dec = false ∨ op = '-' ∧ dec = true) :
    Parser.Parse (fuel + 1)
        ⟨'x' :: (ds₁ ++ (' ' :: ':' :: '=' :: ' ' :: 'x' ::
          (ds₂ ++ (' ' :: op :: ' ' :: '1' :: tail)))), tk, lt, 0⟩ =
      if digitsVal ds₁ = digitsVal ds₂ then
        Parser.parseTail (Parser.Parse fuel)
          (Expr.incrE ⟨Int.ofNat (digitsVal ds₁), dec⟩)
          (some (Expr.incrE ⟨Int.ofNat (digitsVal ds₁), dec⟩))
          ⟨tail, Token.CONSTANT, String.mk ['1'], 0⟩
      else
        ⟨none, true, ⟨' ' :: op :: ' ' :: '1' :: tail, Token.VARIABLE,
          String.mk ('x' :: ds₂), 0⟩⟩ := by
  have hrest : noDigitStart (' ' :: ':' :: '=' :: ' ' :: 'x' ::
      (ds₂ ++ (' ' :: op :: ' ' :: '1' :: tail))) := ⟨by decide, by decide⟩
  have e0 := sIW_variable ds₁
    (' ' :: ':' :: '=' :: ' ' :: 'x' :: (ds₂ ++ (' ' :: op :: ' ' :: '1' :: tail)))
    tk lt h₁ hrest
  have em := parseIncr_asgn ds₁ ds₂ op dec tail h₁ h₂ hn₁ hn₂ hb₁ hb₂ hop
  by_cases hv : digitsVal ds₁ = digitsVal ds₂ <;>
    simp [Parser.Parse, e0, Parser.unscan, em, hv]

/-- The source text x m space := space x n space op space 1, followed by
tail, with m and n written in canonical decimal. -/
def asgnSrc (m n : Nat) (op : Char) (tail : List Char) : List Char :=
  'x' :: (decDigits m ++ (' ' :: ':' :: '=' :: ' ' :: 'x' ::
    (decDigits n ++ (' ' :: op :: ' ' :: '1' :: tail))))

/-- Full Parse invocation on the assignment source text, in terms of the
numbers m and n themselves. -/
theorem ParseString_asgn (m n : Nat) (op : Char) (dec : Bool)
    (tail : List Char) (hm : m ≤ maxGoInt) (hn : n ≤ maxGoInt)
    (hop : op = '+' ∧ dec = false ∨ op = '-' ∧ dec = true) :
    ParseString (String.mk (asgnSrc m n op tail)) =
      if m = n then
        Parser.parseTail (Parser.Parse (asgnSrc m n op tail).length)
          (Expr.incrE ⟨Int.ofNat m, dec⟩)
          (some (Expr.incrE ⟨Int.ofNat m, dec⟩))
          ⟨tail, Token.CONSTANT, String.mk ['1'], 0⟩
      else
        ⟨none, true, ⟨' ' :: op :: ' ' :: '1' :: tail, Token.VARIABLE,
          String.mk ('x' :: decDigits n), 0⟩⟩ := by
  have hstep := Parse_asgn (asgnSrc m n op tail).length
    (decDigits m) (decDigits n) op dec tail Token.ILLEGAL (String.mk [])
    (decDigits_isDigit m) (decDigits_isDigit n)
    (decDigits_ne_nil m) (decDigits_ne_nil n)
    (by rw [digitsVal_decDigits]; exact hm)
    (by rw [digitsVal_decDigits]; exact hn) hop
  have hps : ParseString (String.mk (asgnSrc m n op tail)) =
      Parser.Parse ((asgnSrc m n op tail).length + 1)
        ⟨asgnSrc m n op tail, Token.ILLEGAL, String.mk [], 0⟩ := rfl
  rw [hps]
  rw [show asgnSrc m n op tail = 'x' :: (decDigits m ++ (' ' :: ':' :: '=' ::
    ' ' :: 'x' :: (decDigits n ++ (' ' :: op :: ' ' :: '1' :: tail)))) from rfl] at hstep ⊢
  rw [hstep, digitsVal_decDigits, digitsVal_decDigits]

/-- The tail of a Parse invocation at end of stream: the reader fails, the
scanner returns ILLEGAL with an error, and Parse returns the expression
parsed so far with no error. -/
theorem parseTail_empty (f : Parser → ParseResult) (ex1 : Expr)
    (expr : Option Expr) (tk : Token) (lt : String) :
    Parser.parseTail f ex1 expr ⟨[], tk, lt, 0⟩ =
      ⟨expr, false, ⟨[], Token.ILLEGAL, String.mk [], 0⟩⟩ := rfl

/-- Whether the second list begins with the first one (used to state which
inputs deviate from an expected multi-character literal). -/
def startsWith : List Char → List Char → Bool
  | [], _ => true
  | _ :: _, [] => false
  | p :: ps, c :: cs => if p = c then startsWith ps cs else false

/-- If the input does not continue with the expected characters, the
scanString matching loop ends in scanError: ILLEGAL token, empty literal,
error set. -/
theorem scanStringLoop_mismatch (str : List Char) :
    ∀ (input : List Char) (tk : Token) (buf : List Char),
      startsWith str input = false →
      (scanStringLoop tk buf str input).tok = Token.ILLEGAL ∧
      (scanStringLoop tk buf str input).lit = String.mk [] ∧
      (scanStringLoop tk buf str input).err = true := by
  induction str with
  | nil => intro input tk buf h; simp [startsWith] at h
  | cons sc srest ih =>
    intro input tk buf h
    match input with
    | [] => simp [scanStringLoop, scanError]
    | c :: rest =>
      by_cases hc : c = sc
      · subst hc
        simp only [startsWith, if_pos rfl] at h
        simpa [scanStringLoop] using ih rest tk (buf ++ [c]) h
      · simp [scanStringLoop, hc, scanError]

/-- Scanning a nonempty maximal whitespace run: one WS token whose literal
is the run; a rune equal to eof that ends the run is consumed, any other
ending rune is not. -/
theorem Scan_ws_run (w rest : List Char) (hne : w ≠ [])
    (hw : ∀ c ∈ w, isWhitespace c = true) (hrest : noWsStart rest) :
    Scanner.Scan (w ++ rest) = ⟨Token.WS, String.mk w, false, wsStop rest⟩ := by
  match w, hne with
  | c :: w', _ =>
    have hc : isWhitespace c = true := hw c (List.mem_cons_self c w')
    have h := scanWhitespaceLoop_spec w' [c] rest
      (fun d hd => hw d (List.mem_cons_of_mem c hd)) hrest
    simp [Scanner.Scan, hc, Scanner.scanWhitespace, h]

/-- Modelled from the spec: the repository source contains no interpreter
(the design document specifies it in its interpreter section and the TODO
list marks it as unimplemented), so the Statement sum type is taken from the
spec's words: three variants, Increment with a variable index and a
direction flag, Sequence with two ordered children, While with a tested
variable index and a body. -/
inductive Stmt : Type where
  | increment : Nat → Bool → Stmt
  | sequence : Stmt → Stmt → Stmt
  | whileS : Nat → Stmt → Stmt
deriving DecidableEq, Repr

/-- Pointwise update of an environment (a total map from variable index to
natural value, absent variables reading as zero). -/
def envSet (env : Nat → Nat) (v x : Nat) : Nat → Nat :=
  fun i => if i = v then x else env i

/-- Modelled from the spec: the evaluation function of the unimplemented
interpreter.  Increment(v, dec) sets env v to env v + 1 when the flag is
unset and to the saturating predecessor otherwise (Nat subtraction is
exactly max(env v - 1, 0)); Sequence runs its parts in order; While(v,
body) repeats body while env v is nonzero.  The spec imposes no iteration
bound, so the embedding adds fuel consumed only by loop iterations; fuel
exhaustion returns none and never affects increment or sequence nodes
except through a nested loop. -/
def run (fuel : Nat) (s : Stmt) (env : Nat → Nat) : Option (Nat → Nat) :=
  match s with
  | Stmt.increment v dec =>
    some (envSet env v (if dec then env v - 1 else env v + 1))
  | Stmt.sequence p1 p2 =>
    match run fuel p1 env with
    | none => none
    | some env1 => run fuel p2 env1
  | Stmt.whileS v body =>
    if env v = 0 then some env
    else
      match fuel with
      | 0 => none
      | fuel' + 1 =>
        match run fuel' body env with
        | none => none
        | some env1 => run fuel' s env1
termination_by (fuel, sizeOf s)
decreasing_by
  all_goals first
    | (apply Prod.Lex.left; omega)
    | (apply Prod.Lex.right; simp; try omega)

/-! Claim theorems. -/

/-- Source texts used as concrete instances below. -/
def seqSrc2 : String := "x1 := x1 + 1 ; x1 := x1 - 1"

def seqSrc3 : String := "x1 := x1 + 1 ; x1 := x1 + 1 ; x1 := x1 - 1"

def trailPlusSrc : String := "x1 := x1 + 1 +"

def whileX1Src : String := "WHILE x1"

def overflowSrc : String := "x9223372036854775808 := x9223372036854775808 + 1"

/-- C1 (amended): for every n representable in the Go type int (on 64-bit
platforms, n below 2 to the 63rd), parsing the text x n := x n + 1 (n in
canonical decimal) succeeds without error and yields an Increment node (an
Expr whose tag is INCR_EXPR) with variable index n and Decrement false, and
with a minus sign instead of the plus it yields Decrement true.  For larger
n strconv.Atoi reports a range error and the parse fails, refuting the
claim for every non-negative integer. -/
theorem parse_incr_all_indices (n : Nat) (h : n < 2 ^ 63) :
    (ParseString (String.mk (asgnSrc n n '+' []))).expr
        = some (Expr.incrE ⟨Int.ofNat n, false⟩) ∧
    (ParseString (String.mk (asgnSrc n n '+' []))).err = false ∧
    (ParseString (String.mk (asgnSrc n n '-' []))).expr
        = some (Expr.incrE ⟨Int.ofNat n, true⟩) ∧
    (ParseString (String.mk (asgnSrc n n '-' []))).err = false ∧
    Expr.type (Expr.incrE ⟨Int.ofNat n, false⟩) = ExprType.INCR_EXPR := by
  have h' : n < 9223372036854775808 := by
    have h63 : (2 : Nat) ^ 63 = 9223372036854775808 := by norm_num
    omega
  have hb : n ≤ maxGoInt := by unfold maxGoInt; omega
  have hp := ParseString_asgn n n '+' false [] hb hb (Or.inl ⟨rfl, rfl⟩)
  have hm := ParseString_asgn n n '-' true [] hb hb (Or.inr ⟨rfl, rfl⟩)
  rw [if_pos rfl] at hp hm
  rw [hp, hm, parseTail_empty, parseTail_empty]
  exact ⟨rfl, rfl, rfl, rfl, rfl⟩

/-- Witness for C1 at n = 3. -/
theorem parse_incr_all_indices_witness :
    (3 : Nat) < 2 ^ 63 ∧
    (ParseString (String.mk (asgnSrc 3 3 '+' []))).expr
      = some (Expr.incrE ⟨Int.ofNat 3, false⟩) :=
  ⟨by norm_num, (parse_incr_all_indices 3 (by norm_num)).1⟩

/-- Counterexample for C1 as stated: at n equal to 2 to the 63rd the text
x n := x n + 1 fails to parse (nil expression, error), so no Increment node
is produced. -/
theorem parse_incr_overflow_cex :
    (ParseString overflowSrc).expr = none ∧
    (ParseString overflowSrc).err = true := ⟨rfl, rfl⟩

/-- C2: parsing x m := x n + 1 with m different from n fails with an error
and produces no node; an Increment node arises only when the two indices are
exactly equal (stated for indices in the int range, the domain on which
Atoi succeeds). -/
theorem parse_incr_index_mismatch (m n : Nat) (hm : m ≤ maxGoInt)
    (hn : n ≤ maxGoInt) :
    (m ≠ n →
      (ParseString (String.mk (asgnSrc m n '+' []))).expr = none ∧
      (ParseString (String.mk (asgnSrc m n '+' []))).err = true) ∧
    (∀ e : Expr,
      (ParseString (String.mk (asgnSrc m n '+' []))).expr = some e → m = n) := by
  have hp := ParseString_asgn m n '+' false [] hm hn (Or.inl ⟨rfl, rfl⟩)
  constructor
  · intro hne
    rw [if_neg hne] at hp
    rw [hp]
    exact ⟨rfl, rfl⟩
  · intro e he
    by_contra hne
    rw [if_neg hne] at hp
    rw [hp] at he
    simp at he

/-- Witness for C2 at m = 1, n = 2. -/
theorem parse_incr_index_mismatch_witness :
    (1 : Nat) ≤ maxGoInt ∧ (1 : Nat) ≠ 2 ∧
    (ParseString (String.mk (asgnSrc 1 2 '+' []))).expr = none ∧
    (ParseString (String.mk (asgnSrc 1 2 '+' []))).err = true :=
  ⟨by decide, by decide,
    ((parse_incr_index_mismatch 1 2 (by decide) (by decide)).1 (by decide)).1,
    ((parse_incr_index_mismatch 1 2 (by decide) (by decide)).1 (by decide)).2⟩

/-- C3 (amended): at end of stream the read fails, so Scan returns the
ILLEGAL token with an empty literal and an error; the EOF token (empty
literal, no error) is returned exactly when a rune equal to 0 is actually
read from the stream. -/
theorem scan_end_of_stream :
    Scanner.Scan [] = ⟨Token.ILLEGAL, String.mk [], true, []⟩ ∧
    ∀ rest : List Char,
      Scanner.Scan (eofRune :: rest) = ⟨Token.EOF, String.mk [], false, rest⟩ :=
  ⟨rfl, fun _ => rfl⟩

/-- Counterexample for C3 as stated: on an exhausted stream Scan does not
return the EOF token without an error. -/
theorem scan_end_of_stream_cex :
    ¬((Scanner.Scan []).tok = Token.EOF ∧ (Scanner.Scan []).err = false) := by
  decide

/-- C4: parsing the two-statement program yields a Sequence node whose first
child is Increment(1, false) and whose second child is Increment(1, true);
the three-statement program nests to the right, and in general (last
conjunct) whenever the token after a parsed statement is a semicolon, the
whole remainder parse becomes the second child of the Sequence node. -/
theorem parse_seq_right_assoc :
    (ParseString seqSrc2).expr
        = some (Expr.seqE (some (Expr.incrE ⟨1, false⟩))
            (some (Expr.incrE ⟨1, true⟩))) ∧
    (ParseString seqSrc2).err = false ∧
    (ParseString seqSrc3).expr
        = some (Expr.seqE (some (Expr.incrE ⟨1, false⟩))
            (some (Expr.seqE (some (Expr.incrE ⟨1, false⟩))
              (some (Expr.incrE ⟨1, true⟩))))) ∧
    (ParseString seqSrc3).err = false ∧
    (∀ (f : Parser → ParseResult) (ex1 : Expr) (expr : Option Expr) (p : Parser),
      p.scanIgnoreWhitespace.tok = Token.SEMICOLON →
      p.scanIgnoreWhitespace.err = false →
      Parser.parseTail f ex1 expr p =
        if (f p.scanIgnoreWhitespace.p).err then
          ⟨none, true, (f p.scanIgnoreWhitespace.p).p⟩
        else
          ⟨some (Expr.seqE (some ex1) (f p.scanIgnoreWhitespace.p).expr),
            false, (f p.scanIgnoreWhitespace.p).p⟩) := by
  refine ⟨rfl, rfl, rfl, rfl, ?_⟩
  intro f ex1 expr p htok herr
  simp [Parser.parseTail, htok, herr]

/-- Witness for C4's general conjunct, at a parser whose next token is a
semicolon and the recursive parse of the empty remainder. -/
theorem parse_seq_right_assoc_witness :
    (Parser.scanIgnoreWhitespace ⟨[';'], Token.ILLEGAL, String.mk [], 0⟩).tok
        = Token.SEMICOLON ∧
    Parser.parseTail (Parser.Parse 1) Expr.invalid none
        ⟨[';'], Token.ILLEGAL, String.mk [], 0⟩ =
      if (Parser.Parse 1 (Parser.scanIgnoreWhitespace
            ⟨[';'], Token.ILLEGAL, String.mk [], 0⟩).p).err then
        ⟨none, true, (Parser.Parse 1 (Parser.scanIgnoreWhitespace
          ⟨[';'], Token.ILLEGAL, String.mk [], 0⟩).p).p⟩
      else
        ⟨some (Expr.seqE (some Expr.invalid)
            (Parser.Parse 1 (Parser.scanIgnoreWhitespace
              ⟨[';'], Token.ILLEGAL, String.mk [], 0⟩).p).expr),
          false, (Parser.Parse 1 (Parser.scanIgnoreWhitespace
            ⟨[';'], Token.ILLEGAL, String.mk [], 0⟩).p).p⟩ :=
  ⟨rfl, parse_seq_right_assoc.2.2.2.2 (Parser.Parse 1) Expr.invalid none
    ⟨[';'], Token.ILLEGAL, String.mk [], 0⟩ rfl rfl⟩

/-- C5 (amended): after a valid increment followed by a trailing token that
is neither SEMICOLON nor EOF nor ILLEGAL (here a plus sign), Parse returns
the Increment node with no error, but the trailing token is consumed, not
pushed back: the final lookahead buffer holds it with pending count 0, so a
further scan would read past it. -/
theorem parse_trailing_token (n : Nat) (h : n < 2 ^ 63) :
    ParseString (String.mk (asgnSrc n n '+' [' ', '+'])) =
      ⟨some (Expr.incrE ⟨Int.ofNat n, false⟩), false,
        ⟨[], Token.PLUS, String.mk ['+'], 0⟩⟩ := by
  have h' : n < 9223372036854775808 := by
    have h63 : (2 : Nat) ^ 63 = 9223372036854775808 := by norm_num
    omega
  have hb : n ≤ maxGoInt := by unfold maxGoInt; omega
  have hp := ParseString_asgn n n '+' false [' ', '+'] hb hb (Or.inl ⟨rfl, rfl⟩)
  rw [if_pos rfl] at hp
  rw [hp]
  rfl

/-- Witness for C5 at n = 1. -/
theorem parse_trailing_token_witness :
    (1 : Nat) < 2 ^ 63 ∧
    ParseString (String.mk (asgnSrc 1 1 '+' [' ', '+'])) =
      ⟨some (Expr.incrE ⟨Int.ofNat 1, false⟩), false,
        ⟨[], Token.PLUS, String.mk ['+'], 0⟩⟩ :=
  ⟨by norm_num, parse_trailing_token 1 (by norm_num)⟩

/-- Counterexample for C5 as stated: on the concrete input the Increment is
returned with no error, but the trailing plus token is not available unread
in the one-token buffer (its pending count is 0, not 1): pushback did not
happen. -/
theorem parse_trailing_token_cex :
    (ParseString trailPlusSrc).expr = some (Expr.incrE ⟨1, false⟩) ∧
    (ParseString trailPlusSrc).err = false ∧
    (ParseString trailPlusSrc).p.bufTok = Token.PLUS ∧
    (ParseString trailPlusSrc).p.bufN = 0 ∧
    (ParseString trailPlusSrc).p.bufN ≠ 1 :=
  ⟨rfl, rfl, rfl, rfl, by decide⟩

/-- C6: an input that begins one of the multi-character tokens (colon for
the assignment operator, bang for the inequality operator, or the W, D, E
keywords) but deviates from the expected literal at any later position (or
ends early) makes Scan return the ILLEGAL token with an empty literal and an
error: no false partial match of the expected category is ever returned. -/
theorem scan_multichar_mismatch (cs : List Char) :
    (startsWith ['='] cs = false →
      (Scanner.Scan (':' :: cs)).tok = Token.ILLEGAL ∧
      (Scanner.Scan (':' :: cs)).lit = String.mk [] ∧
      (Scanner.Scan (':' :: cs)).err = true) ∧
    (startsWith ['='] cs = false →
      (Scanner.Scan ('!' :: cs)).tok = Token.ILLEGAL ∧
      (Scanner.Scan ('!' :: cs)).lit = String.mk [] ∧
      (Scanner.Scan ('!' :: cs)).err = true) ∧
    (startsWith ['H', 'I', 'L', 'E'] cs = false →
      (Scanner.Scan ('W' :: cs)).tok = Token.ILLEGAL ∧
      (Scanner.Scan ('W' :: cs)).lit = String.mk [] ∧
      (Scanner.Scan ('W' :: cs)).err = true) ∧
    (startsWith ['O'] cs = false →
      (Scanner.Scan ('D' :: cs)).tok = Token.ILLEGAL ∧
      (Scanner.Scan ('D' :: cs)).lit = String.mk [] ∧
      (Scanner.Scan ('D' :: cs)).err = true) ∧
    (startsWith ['N', 'D'] cs = false →
      (Scanner.Scan ('E' :: cs)).tok = Token.ILLEGAL ∧
      (Scanner.Scan ('E' :: cs)).lit = String.mk [] ∧
      (Scanner.Scan ('E' :: cs)).err = true) := by
  refine ⟨fun h => ?_, fun h => ?_, fun h => ?_, fun h => ?_, fun h => ?_⟩
  · have e : Scanner.Scan (':' :: cs)
        = scanStringLoop Token.ASSIGN [':'] ['='] cs := rfl
    rw [e]
    exact scanStringLoop_mismatch ['='] cs Token.ASSIGN [':'] h
  · have e : Scanner.Scan ('!' :: cs)
        = scanStringLoop Token.NOTEQUAL ['!'] ['='] cs := rfl
    rw [e]
    exact scanStringLoop_mismatch ['='] cs Token.NOTEQUAL ['!'] h
  · have e : Scanner.Scan ('W' :: cs)
        = scanStringLoop Token.WHILE ['W'] ['H', 'I', 'L', 'E'] cs := rfl
    rw [e]
    exact scanStringLoop_mismatch ['H', 'I', 'L', 'E'] cs Token.WHILE ['W'] h
  · have e : Scanner.Scan ('D' :: cs)
        = scanStringLoop Token.DO ['D'] ['O'] cs := rfl
    rw [e]
    exact scanStringLoop_mismatch ['O'] cs Token.DO ['D'] h
  · have e : Scanner.Scan ('E' :: cs)
        = scanStringLoop Token.END ['E'] ['N', 'D'] cs := rfl
    rw [e]
    exact scanStringLoop_mismatch ['N', 'D'] cs Token.END ['E'] h

/-- Witness for C6 at the input colon bang. -/
theorem scan_multichar_mismatch_witness :
    startsWith ['='] ['!'] = false ∧
    (Scanner.Scan (':' :: ['!'])).tok = Token.ILLEGAL ∧
    (Scanner.Scan (':' :: ['!'])).err = true :=
  ⟨by decide, ((scan_multichar_mismatch ['!']).1 (by decide)).1,
    ((scan_multichar_mismatch ['!']).1 (by decide)).2.2⟩

/-- C7 (amended): on an input that is a nonempty whitespace run followed by
the rest of the stream (empty, or starting with a non-whitespace character),
Scan consumes the maximal run and returns one WS token whose literal is
exactly that run, with no error; the run ends at end of input or at the
first non-whitespace character, which is left unconsumed unless it is the
rune 0, which ends the run and is consumed (the wsStop function). -/
theorem scan_ws_maximal_run (w rest : List Char) (hne : w ≠ [])
    (hw : ∀ c ∈ w, isWhitespace c = true) (hrest : noWsStart rest) :
    Scanner.Scan (w ++ rest) = ⟨Token.WS, String.mk w, false, wsStop rest⟩ :=
  Scan_ws_run w rest hne hw hrest

/-- Witness for C7 on a mixed whitespace run followed by a variable start. -/
theorem scan_ws_maximal_run_witness :
    ([' ', '\t', '\n'] : List Char) ≠ [] ∧
    Scanner.Scan ([' ', '\t', '\n'] ++ ['x']) =
      ⟨Token.WS, String.mk [' ', '\t', '\n'], false, wsStop ['x']⟩ :=
  ⟨by decide, scan_ws_maximal_run [' ', '\t', '\n'] ['x'] (by decide)
    (by decide) (by exact (by decide : isWhitespace 'x' = false))⟩

/-- Counterexample for C7 as stated: after the whitespace run in the input
space, rune 0, x the scanner consumes the rune 0 (the first non-whitespace
character), so the remaining stream no longer starts with it. -/
theorem scan_ws_nul_cex :
    Scanner.Scan [' ', eofRune, 'x']
        = ⟨Token.WS, String.mk [' '], false, ['x']⟩ ∧
    (Scanner.Scan [' ', eofRune, 'x']).rest ≠ eofRune :: 'x' :: [] :=
  ⟨rfl, by decide⟩

/-- C8: running an Increment with the decrement flag set on an environment
where the variable reads 0 returns an environment (no error) in which the
variable still reads 0 (saturating decrement); with the flag unset the
variable's value grows by exactly 1.  Fuel is irrelevant to increment
statements. -/
theorem run_incr_saturating (fuel : Nat) (env : Nat → Nat) (v : Nat) :
    (env v = 0 →
      run fuel (Stmt.increment v true) env = some (envSet env v 0) ∧
      envSet env v 0 v = 0) ∧
    run fuel (Stmt.increment v false) env = some (envSet env v (env v + 1)) ∧
    envSet env v (env v + 1) v = env v + 1 := by
  refine ⟨fun h0 => ⟨?_, ?_⟩, ?_, ?_⟩
  · simp [run, h0]
  · simp [envSet]
  · simp [run]
  · simp [envSet]

/-- Witness for C8 on the all-zero environment at variable 0. -/
theorem run_incr_saturating_witness :
    ((fun _ => 0 : Nat → Nat) 0 = 0) ∧
    run 0 (Stmt.increment 0 true) (fun _ => 0)
      = some (envSet (fun _ => 0) 0 0) :=
  ⟨rfl, ((run_incr_saturating 0 (fun _ => 0) 0).1 rfl).1⟩

/-- C9: parsing is deterministic: two Parse invocations, each on a fresh
parser over the same source text, return the same expression and the same
error outcome (the embedding of the Go pipeline is a pure function of the
input, and the Go code consults no other state). -/
theorem parse_deterministic (s : String) :
    ParseString s = ParseString s ∧
    ∀ fuel : Nat,
      Parser.Parse fuel (mkParser s) = Parser.Parse fuel (mkParser s) :=
  ⟨rfl, fun _ => rfl⟩

/-- C10: on the input WHILE x1 (a WHILE keyword followed by a non-semicolon
token), Parse returns a nil expression pointer and a nil error: neither a
result nor a failure. -/
theorem parse_nil_expr_nil_error :
    (ParseString whileX1Src).expr = none ∧
    (ParseString whileX1Src).err = false :=
  ⟨rfl, rfl⟩
